import Mathlib

/-!
Verification of the PortfolioML data-preparation pipeline
(`portfolioML/data/data_returns.py` and `portfolioML/model/split.py`).

Dataframes are embedded as Lean lists: a table is either a list of rows
(row-major, used by the splitting / windowing functions, which slice rows)
or a list of columns (column-major, used by `get_returns`, which builds its
output column by column).  Cells are rationals; cells that may be missing
(NaN) are `Option` rationals.  Python slices `l[a:b]` with nonnegative
bounds are `pySlice`, Python `range(0, stop, step)` is `pyRange`.
-/

/-- Python slice `l[a:b]` for nonnegative bounds `a`, `b`:
take the first `b` elements, then drop the first `a` of those. -/
def pySlice {α : Type} (l : List α) (a b : Nat) : List α :=
  (l.take b).drop a

/-- Number of elements of Python `range(0, stop, step)` for `step > 0`:
zero when `stop ≤ 0`, otherwise `⌈stop/step⌉ = (stop-1)/step + 1`. -/
def pyRangeLen (stop : Int) (step : Nat) : Nat :=
  if stop ≤ 0 then 0 else (stop.toNat - 1) / step + 1

/-- Python `range(0, stop, step)` for an integer `stop` and positive `step`:
the list `[0, step, 2*step, ...]` of all multiples of `step` below `stop`. -/
def pyRange (stop : Int) (step : Nat) : List Nat :=
  (List.range (pyRangeLen stop step)).map (fun k => k * step)

/-- Embedding of `split.get_sequences(returns, targets, n_steps)`:
`X = [returns[i:i+n_steps] for i in range(len(returns)-n_steps)]` and
`y = [targets[i+n_steps] for i in range(len(targets)-n_steps)]`.
A Python `range` of a negative number is empty, as is `List.range`
of a truncated-subtraction zero. -/
def get_sequences (returns targets : List ℚ) (n_steps : Nat) :
    List (List ℚ) × List ℚ :=
  ((List.range (returns.length - n_steps)).map (fun i => pySlice returns i (i + n_steps)),
   (List.range (targets.length - n_steps)).map (fun i => targets.getD (i + n_steps) 0))

/-- Element `i` of `(List.range m).map f`, for `i < m`. -/
theorem getD_map_range {α : Type} (f : Nat → α) (m i : Nat) (d : α) (h : i < m) :
    ((List.range m).map f).getD i d = f i := by
  rw [List.getD_eq_getElem?_getD, List.getElem?_map, List.getElem?_range h]
  rfl

/-- C1: for equal-length series and positive `n_steps`, `get_sequences`
produces lists `X` and `y` of equal length `len(returns) - n_steps`
(empty when `len(returns) ≤ n_steps`), with `X[i] = returns[i:i+n_steps]`
and `y[i] = targets[i+n_steps]`, in temporal order (index `i` ascends). -/
theorem get_sequences_correct (returns targets : List ℚ) (n_steps : Nat)
    (hlen : returns.length = targets.length) (_hpos : 0 < n_steps) :
    (get_sequences returns targets n_steps).1.length = returns.length - n_steps ∧
    (get_sequences returns targets n_steps).2.length = returns.length - n_steps ∧
    (∀ i, i < returns.length - n_steps →
      (get_sequences returns targets n_steps).1.getD i [] =
        pySlice returns i (i + n_steps) ∧
      (get_sequences returns targets n_steps).2.getD i 0 =
        targets.getD (i + n_steps) 0) := by
  refine ⟨?_, ?_, ?_⟩
  · simp [get_sequences]
  · simp [get_sequences, hlen]
  · intro i hi
    constructor
    · exact getD_map_range _ _ _ _ hi
    · exact getD_map_range _ _ _ _ (by omega : i < targets.length - n_steps)

/-- Witness for C1 at `returns = [1,2,3]`, `targets = [4,5,6]`, `n_steps = 1`. -/
theorem get_sequences_correct_witness :
    (get_sequences [1, 2, 3] [4, 5, 6] 1).1.getD 0 [] = pySlice [1, 2, 3] 0 (0 + 1) ∧
    (get_sequences [1, 2, 3] [4, 5, 6] 1).2.getD 0 0 = ([4, 5, 6] : List ℚ).getD (0 + 1) 0 :=
  (get_sequences_correct [1, 2, 3] [4, 5, 6] 1 (by decide) (by decide)).2.2 0 (by decide)

/-- Embedding of `split.split_Tperiod(df_returns, df_binary, len_period, len_test)`:
`len_total_leave = len(df_returns) - len_period` (a Python int, possibly
negative) and both period lists slice `df[i : len_period + i]` for
`i in range(0, len_total_leave + 1, len_test)`.  The source computes the
range from `df_returns` for both lists.  A table is its list of rows,
the row type is opaque. -/
def split_Tperiod {α β : Type} (df_returns : List α) (df_binary : List β)
    (len_period len_test : Nat) : List (List α) × List (List β) :=
  ((pyRange ((df_returns.length : Int) - len_period + 1) len_test).map
      (fun i => pySlice df_returns i (len_period + i)),
   (pyRange ((df_returns.length : Int) - len_period + 1) len_test).map
      (fun i => pySlice df_binary i (len_period + i)))

/-- Membership in `pyRange`: the elements are exactly the multiples
`k * step` with `k * step < stop`, for positive `step`. -/
theorem mem_pyRange (stop : Int) (step : Nat) (hstep : 0 < step) (x : Nat) :
    x ∈ pyRange stop step ↔ step ∣ x ∧ (x : Int) < stop := by
  unfold pyRange pyRangeLen
  constructor
  · intro hx
    obtain ⟨k, hk, rfl⟩ := List.mem_map.mp hx
    rw [List.mem_range] at hk
    split at hk
    · omega
    · refine ⟨⟨k, Nat.mul_comm k step⟩, ?_⟩
      have h1 : k ≤ (stop.toNat - 1) / step := by omega
      have h2 : k * step ≤ stop.toNat - 1 := (Nat.le_div_iff_mul_le hstep).mp h1
      omega
  · rintro ⟨⟨k, rfl⟩, hlt⟩
    refine List.mem_map.mpr ⟨k, List.mem_range.mpr ?_, Nat.mul_comm k step⟩
    have hcomm : step * k = k * step := Nat.mul_comm step k
    split
    · omega
    · have h2 : k * step ≤ stop.toNat - 1 := by omega
      have h1 : k ≤ (stop.toNat - 1) / step := (Nat.le_div_iff_mul_le hstep).mpr h2
      omega

/-- Length of `pyRange`: `k < pyRangeLen stop step ↔ (k*step : ℤ) < stop`. -/
theorem lt_pyRangeLen (stop : Int) (step : Nat) (hstep : 0 < step) (k : Nat) :
    k < pyRangeLen stop step ↔ (k * step : Int) < stop := by
  unfold pyRangeLen
  split
  · constructor
    · omega
    · intro h
      have : (0 : Int) ≤ (k * step : Nat) := Int.natCast_nonneg _
      push_cast at this
      omega
  · rw [Nat.lt_succ_iff, Nat.le_div_iff_mul_le hstep]
    omega

/-- C4: for equal-length tables and positive `len_period`, `len_test`,
`split_Tperiod` returns two lists of identical length whose `i`-th
elements are the row-aligned slices `[i*len_test, i*len_test + len_period)`
of the two tables; the slices produced are exactly those whose start
`k * len_test` satisfies `start ≤ len(table) - len_period` (an integer
inequality, so when `len(table) < len_period` both lists are empty). -/
theorem split_Tperiod_correct {α β : Type} (df_returns : List α) (df_binary : List β)
    (len_period len_test : Nat)
    (hlen : df_returns.length = df_binary.length)
    (_hlp : 0 < len_period) (hlt : 0 < len_test) :
    (split_Tperiod df_returns df_binary len_period len_test).1.length =
      (split_Tperiod df_returns df_binary len_period len_test).2.length ∧
    (∀ i, i < (split_Tperiod df_returns df_binary len_period len_test).1.length →
      (split_Tperiod df_returns df_binary len_period len_test).1.getD i [] =
        pySlice df_returns (i * len_test) (i * len_test + len_period) ∧
      (split_Tperiod df_returns df_binary len_period len_test).2.getD i [] =
        pySlice df_binary (i * len_test) (i * len_test + len_period)) ∧
    (∀ k, k < (split_Tperiod df_returns df_binary len_period len_test).1.length ↔
      (k * len_test : Int) ≤ (df_returns.length : Int) - len_period) ∧
    (df_returns.length < len_period →
      (split_Tperiod df_returns df_binary len_period len_test).1 = [] ∧
      (split_Tperiod df_returns df_binary len_period len_test).2 = []) := by
  have hlen1 : (split_Tperiod df_returns df_binary len_period len_test).1.length =
      pyRangeLen ((df_returns.length : Int) - len_period + 1) len_test := by
    simp [split_Tperiod, pyRange]
  refine ⟨?_, ?_, ?_, ?_⟩
  · simp [split_Tperiod]
  · intro i hi
    rw [hlen1] at hi
    constructor
    · show ((pyRange _ _).map _).getD i [] = _
      rw [pyRange, List.map_map, getD_map_range _ _ _ _ hi]
      simp [Function.comp, Nat.add_comm]
    · show ((pyRange _ _).map _).getD i [] = _
      rw [pyRange, List.map_map, getD_map_range _ _ _ _ hi]
      simp [Function.comp, Nat.add_comm]
  · intro k
    rw [hlen1, lt_pyRangeLen _ _ hlt]
    omega
  · intro hshort
    have h0 : pyRangeLen ((df_returns.length : Int) - len_period + 1) len_test = 0 := by
      unfold pyRangeLen
      split
      · rfl
      · omega
    constructor <;>
      simp [split_Tperiod, pyRange, h0]

/-- Witness for C4 at `df_returns = [10, 20]`, `df_binary = [30, 40]`,
`len_period = 1`, `len_test = 1`. -/
theorem split_Tperiod_correct_witness :
    (split_Tperiod [10, 20] ([30, 40] : List ℕ) 1 1).1.length =
      (split_Tperiod [10, 20] ([30, 40] : List ℕ) 1 1).2.length ∧
    (split_Tperiod [10, 20] ([30, 40] : List ℕ) 1 1).1.getD 1 [] =
      pySlice [10, 20] (1 * 1) (1 * 1 + 1) :=
  ⟨(split_Tperiod_correct [10, 20] [30, 40] 1 1 (by decide) (by decide) (by decide)).1,
   ((split_Tperiod_correct [10, 20] [30, 40] 1 1 (by decide) (by decide) (by decide)).2.1
      1 (by decide)).1⟩

/-- Counterexample to C5: a table of 4 rows with `len_period = 1`,
`len_test = 2` has `len(total) - len_period = 3`, which is not a multiple
of `len_test`; the produced periods are `[[0], [2]]` and no period equals
the trailing slice `[3, 4) = [3]`, so the rolling window overshoots the end
of the table without a trailing period being added. -/
theorem split_Tperiod_no_trailing_period :
    pySlice ([0, 1, 2, 3] : List ℕ) 3 4 = [3] ∧
    [3] ∉ (split_Tperiod ([0, 1, 2, 3] : List ℕ) ([0, 1, 2, 3] : List ℕ) 1 2).1 := by
  decide

/-- C5 (amended): the periods produced by `split_Tperiod` start only at the
multiples of `len_test`, so for a table with `len_period ≤ len(total)` a
trailing period starting at row `len(total) - len_period` is produced
exactly when `len_test` divides `len(total) - len_period`; otherwise the
last period stops short of the end of the table. -/
theorem split_Tperiod_trailing_iff {α β : Type} (df_returns : List α) (df_binary : List β)
    (len_period len_test : Nat) (hlt : 0 < len_test)
    (hlp : len_period ≤ df_returns.length) :
    ((df_returns.length - len_period) ∈
        pyRange ((df_returns.length : Int) - len_period + 1) len_test ↔
      len_test ∣ (df_returns.length - len_period)) ∧
    (len_test ∣ (df_returns.length - len_period) →
      pySlice df_returns (df_returns.length - len_period) df_returns.length ∈
        (split_Tperiod df_returns df_binary len_period len_test).1) := by
  have hiff := mem_pyRange ((df_returns.length : Int) - len_period + 1) len_test hlt
    (df_returns.length - len_period)
  constructor
  · rw [hiff]
    constructor
    · exact fun h => h.1
    · intro h
      exact ⟨h, by omega⟩
  · intro hdvd
    have hmem : (df_returns.length - len_period) ∈
        pyRange ((df_returns.length : Int) - len_period + 1) len_test :=
      hiff.mpr ⟨hdvd, by omega⟩
    have harg : len_period + (df_returns.length - len_period) = df_returns.length := by
      omega
    show _ ∈ (pyRange _ _).map (fun i => pySlice df_returns i (len_period + i))
    exact List.mem_map.mpr ⟨df_returns.length - len_period, hmem, by rw [harg]⟩

/-- Witness for the amended C5 at a 3-row table with `len_period = 1`,
`len_test = 2`: here `len_test` divides `len - len_period = 2` and the
trailing period `[2, 3) = [2]` is produced. -/
theorem split_Tperiod_trailing_iff_witness :
    pySlice ([0, 1, 2] : List ℕ) (3 - 1) 3 ∈
      (split_Tperiod ([0, 1, 2] : List ℕ) ([5, 6, 7] : List ℕ) 1 2).1 :=
  (split_Tperiod_trailing_iff [0, 1, 2] [5, 6, 7] 1 2 (by decide) (by decide)).2
    (by decide)

/-- One cell of the vectorized expression
`np.array(tomorrow) / np.array(today)[:-m] - 1` in `get_returns`: a NaN
(missing price) on either side propagates to the result. -/
def ocell (tomorrow today : Option ℚ) : Option ℚ :=
  match tomorrow, today with
  | some a, some b => some (a / b - 1)
  | _, _ => none

/-- One company column of `get_returns`: `tomorrow = today[m:]` divided by
`np.array(today)[:-m]`, minus one.  Python's `l[:-m]` is `l[:len(l)-m]`
when `m > 0` but `l[:0] = []` when `m = 0`. -/
def shiftCol (today : List (Option ℚ)) (m : Nat) : List (Option ℚ) :=
  List.zipWith ocell (today.drop m)
    (if m = 0 then [] else today.take (today.length - m))

/-- Column counterpart of `df.dropna(axis=1)`: a column survives when it
has no missing cell. -/
def colComplete (col : List (Option ℚ)) : Bool :=
  col.all (fun x => x.isSome)

/-- Body of `data_returns.get_returns` after the period check: the first
column of the input (the `Data` column) is skipped, every other column is
shifted, and with `no_missing` the columns with a missing cell are dropped.
The table is column-major: a list of columns of optional cells. -/
def returnsCore (dataframe : List (List (Option ℚ))) (m : Nat) (no_missing : Bool) :
    List (List (Option ℚ)) :=
  let cols := dataframe.tail.map (fun col => shiftCol col m)
  if no_missing then cols.filter colComplete else cols

/-- Embedding of `data_returns.get_returns(dataframe, m, no_missing)`:
the guard raises (prints and exits) only when `m < 0`; otherwise the
shifted-return table is produced.  CSV export is out of scope. -/
def get_returns (dataframe : List (List (Option ℚ))) (m : Int) (no_missing : Bool) :
    Except String (List (List (Option ℚ))) :=
  if m < 0 then
    Except.error "Ops! Invalid input, you can't go backward in time: m must be positive."
  else
    Except.ok (returnsCore dataframe m.toNat no_missing)

/-- Cell `t` of a shifted column, for `0 < m` and `t + m` in range. -/
theorem shiftCol_getD (c : List (Option ℚ)) (m t : Nat)
    (hm : 0 < m) (ht : t + m < c.length) :
    (shiftCol c m).getD t none = ocell (c.getD (t + m) none) (c.getD t none) := by
  have hsh : shiftCol c m =
      List.zipWith ocell (c.drop m) (c.take (c.length - m)) := by
    rw [shiftCol, if_neg (by omega)]
  have hlen : (List.zipWith ocell (c.drop m) (c.take (c.length - m))).length =
      c.length - m := by
    simp [List.length_zipWith]
  have ht' : t < (List.zipWith ocell (c.drop m) (c.take (c.length - m))).length := by
    omega
  rw [hsh, List.getD_eq_getElem _ _ ht', List.getElem_zipWith,
    List.getElem_drop, List.getElem_take,
    List.getD_eq_getElem _ _ (by omega : t + m < c.length),
    List.getD_eq_getElem _ _ (by omega : t < c.length)]
  congr 2
  omega

/-- Length of a shifted column, for `0 < m`. -/
theorem shiftCol_length (c : List (Option ℚ)) (m : Nat) (hm : 0 < m) :
    (shiftCol c m).length = c.length - m := by
  rw [shiftCol, if_neg (by omega)]
  simp [List.length_zipWith]

/-- C2: for a price table whose columns all have `n` rows and a positive
period `m < n`, `get_returns` succeeds, and every company column retained
in the output has `n - m` rows whose cell `t` is
`P[c][t+m] / P[c][t] - 1` for its source column `c` of the input. -/
theorem get_returns_correct (dataframe : List (List (Option ℚ))) (n m : Nat)
    (hcols : ∀ col ∈ dataframe, col.length = n) (hm : 0 < m) (hmn : m < n) :
    get_returns dataframe (m : Int) true =
      Except.ok (returnsCore dataframe m true) ∧
    ∀ o ∈ returnsCore dataframe m true,
      o.length = n - m ∧
      ∃ c ∈ dataframe.tail, ∀ t, t < n - m →
        ∃ a b : ℚ, c.getD (t + m) none = some a ∧ c.getD t none = some b ∧
          o.getD t none = some (a / b - 1) := by
  constructor
  · rw [get_returns, if_neg (by omega)]
    simp
  · intro o ho
    rw [returnsCore] at ho
    simp only [if_pos] at ho
    obtain ⟨homem, hcomp⟩ := List.mem_filter.mp ho
    obtain ⟨c, hc, rfl⟩ := List.mem_map.mp homem
    have hclen : c.length = n := hcols c (List.mem_of_mem_tail hc)
    have holen : (shiftCol c m).length = n - m := by
      rw [shiftCol_length c m hm, hclen]
    refine ⟨holen, c, hc, ?_⟩
    intro t ht
    have hcell := shiftCol_getD c m t hm (by omega)
    have hmem : (shiftCol c m).getD t none ∈ shiftCol c m := by
      rw [List.getD_eq_getElem _ _ (by omega : t < (shiftCol c m).length)]
      exact List.getElem_mem _
    have hsome : ((shiftCol c m).getD t none).isSome = true :=
      List.all_eq_true.mp hcomp _ hmem
    rw [hcell] at hsome ⊢
    cases ha : c.getD (t + m) none with
    | none => rw [ha] at hsome; simp [ocell] at hsome
    | some a =>
      cases hb : c.getD t none with
      | none => rw [ha, hb] at hsome; simp [ocell] at hsome
      | some b => exact ⟨a, b, rfl, rfl, by rw [ocell]⟩

/-- Witness for C2 at a two-column table (a `Data` column and one company
with prices `[100, 110]`) and `m = 1`. -/
theorem get_returns_correct_witness :
    get_returns [[none, none], [some 100, some 110]] 1 true =
      Except.ok (returnsCore [[none, none], [some 100, some 110]] 1 true) :=
  (get_returns_correct [[none, none], [some 100, some 110]] 2 1
    (by decide) (by decide) (by decide)).1

/-- C6 evaluation: the validity guard in `get_returns` tests `m < 0`, not
`m ≤ 0`, so the period `m = 0` passes validation although the error message
demands a positive `m`.  On a one-row price table (a `Data` column and one
company priced `100`) the function returns a zero-row table instead of
reporting the invalid period and exiting. -/
theorem get_returns_zero_period_not_rejected :
    get_returns [[none], [some 100]] 0 true = Except.ok [[]] := by
  rfl

/-- C10: `get_returns` drops the first column of its input unconditionally:
replacing the first column by any other column leaves the result unchanged,
and every output column is a shifted copy of one of the remaining input
columns `dataframe.columns[1:]`. -/
theorem get_returns_ignores_first_column (c0 c0' : List (Option ℚ))
    (rest : List (List (Option ℚ))) (m : Int) (no_missing : Bool) (k : Nat) :
    get_returns (c0 :: rest) m no_missing = get_returns (c0' :: rest) m no_missing ∧
    ∀ o ∈ returnsCore (c0 :: rest) k no_missing,
      o ∈ rest.map (fun col => shiftCol col k) := by
  constructor
  · rfl
  · intro o ho
    rw [returnsCore] at ho
    cases no_missing with
    | true => exact (List.mem_filter.mp ho).1
    | false => exact ho

/-- Witness for C10: the concrete first columns `[some 1]` and `[none]`
give the same returns table, whose single column comes from the company
column `[some 2, some 4]`. -/
theorem get_returns_ignores_first_column_witness :
    get_returns [[some 1], [some 2, some 4]] 1 false =
      get_returns [[none], [some 2, some 4]] 1 false ∧
    shiftCol [some 2, some 4] 1 ∈
      ([[some 2, some 4]] : List (List (Option ℚ))).map (fun col => shiftCol col 1) :=
  ⟨(get_returns_ignores_first_column [some 1] [none] [[some 2, some 4]] 1 false 1).1,
   (get_returns_ignores_first_column [some 1] [none] [[some 2, some 4]] 1 false 1).2
     (shiftCol [some 2, some 4] 1) (by simp [returnsCore])⟩

/-- Insertion of a rational into a sorted list (ascending). -/
def insertQ (x : ℚ) : List ℚ → List ℚ
  | [] => [x]
  | y :: ys => if x ≤ y then x :: y :: ys else y :: insertQ x ys

/-- Insertion sort of a list of rationals, ascending. -/
def sortQ (l : List ℚ) : List ℚ :=
  l.foldr insertQ []

/-- Embedding of Python `statistics.median`: sort the values; take the
middle element when the count is odd, the mean of the two middle elements
when it is even.  (`statistics.median` of an empty list raises; here the
value at `[]` is junk and every theorem only uses it on nonempty rows.) -/
def pymedian (l : List ℚ) : ℚ :=
  let s := sortQ l
  if s.length % 2 = 1 then s.getD (s.length / 2) 0
  else (s.getD (s.length / 2 - 1) 0 + s.getD (s.length / 2) 0) / 2

/-- One row of `binary_targets`: `x.apply(lambda x: 0 if x <= compare_value
else 1)` with `compare_value = median(row)`. -/
def rowLabel (row : List ℚ) : List ℚ :=
  row.map (fun x => if x ≤ pymedian row then 0 else 1)

/-- The `for time_idx in range(...)` loop body of `binary_targets`: the row
at `time_idx` of the (single, aliased) table is overwritten with its labels,
reading the values still stored there — rows above `time_idx` are already
labelled, rows below are untouched originals. -/
def binLoop (acc : List (List ℚ)) : List Nat → List (List ℚ)
  | [] => acc
  | t :: ts => binLoop (acc.set t (rowLabel (acc.getD t []))) ts

/-- Embedding of `data_returns.binary_targets(dataframe)` (value level):
`df = dataframe` aliases the input, then each row index in
`range(dataframe.shape[0])` is relabelled in place.  CSV export is out of
scope. -/
def binary_targets (dataframe : List (List ℚ)) : List (List ℚ) :=
  binLoop dataframe (List.range dataframe.length)

/-- The element at the join point of an append. -/
theorem getD_append_len {α : Type} (u : List α) (r : α) (vs : List α) (d : α) :
    (u ++ r :: vs).getD u.length d = r := by
  induction u with
  | nil => rfl
  | cons a as ih => simpa using ih

/-- Setting the element at the join point of an append. -/
theorem set_append_len {α : Type} (u : List α) (r x : α) (vs : List α) :
    (u ++ r :: vs).set u.length x = u ++ x :: vs := by
  induction u with
  | nil => rfl
  | cons a as ih => simp [ih]

/-- The relabelling loop touches each row exactly once, so it maps
`rowLabel` over the rows: each row's labels are computed from that row's
original values only (no cross-row state). -/
theorem binLoop_eq_map (v u : List (List ℚ)) :
    binLoop (u ++ v) (List.range' u.length v.length) = u ++ v.map rowLabel := by
  induction v generalizing u with
  | nil => simp [binLoop]
  | cons r vs ih =>
    rw [List.length_cons, List.range'_succ, binLoop, List.getD_eq_getElem?_getD]
    rw [show (u ++ r :: vs)[u.length]? = some r by
      rw [List.getElem?_append_right (Nat.le_refl _)]
      simp]
    show binLoop ((u ++ r :: vs).set u.length (rowLabel r)) _ = _
    rw [set_append_len]
    have h1 : u.length + 1 = (u ++ [rowLabel r]).length := by simp
    have h2 : u ++ rowLabel r :: vs = (u ++ [rowLabel r]) ++ vs := by simp
    rw [h2, h1, ih (u ++ [rowLabel r])]
    simp

/-- C3: `binary_targets` has the shape of its input, each row is labelled
independently of the others, every cell is `0` or `1`, and a cell is `0`
exactly when the original return is at most the cross-sectional median of
its row (ties at the median go to class 0), `1` exactly when it is
strictly greater. -/
theorem binary_targets_correct (dataframe : List (List ℚ)) :
    binary_targets dataframe = dataframe.map rowLabel ∧
    (binary_targets dataframe).length = dataframe.length ∧
    (∀ i, i < dataframe.length →
      ((binary_targets dataframe).getD i []).length = (dataframe.getD i []).length ∧
      (∀ j, j < (dataframe.getD i []).length →
        (((binary_targets dataframe).getD i []).getD j 0 = 0 ∨
          ((binary_targets dataframe).getD i []).getD j 0 = 1) ∧
        (((binary_targets dataframe).getD i []).getD j 0 = 0 ↔
          (dataframe.getD i []).getD j 0 ≤ pymedian (dataframe.getD i [])) ∧
        (((binary_targets dataframe).getD i []).getD j 0 = 1 ↔
          pymedian (dataframe.getD i []) < (dataframe.getD i []).getD j 0))) := by
  have hmap : binary_targets dataframe = dataframe.map rowLabel := by
    have := binLoop_eq_map dataframe []
    simpa [binary_targets, List.range_eq_range'] using this
  refine ⟨hmap, by rw [hmap]; simp, ?_⟩
  intro i hi
  have hrow : (binary_targets dataframe).getD i [] = rowLabel (dataframe.getD i []) := by
    rw [hmap, List.getD_eq_getElem _ _ (by simpa using hi), List.getElem_map,
      List.getD_eq_getElem _ _ hi]
  refine ⟨by rw [hrow]; simp [rowLabel], ?_⟩
  intro j hj
  have hcell : (rowLabel (dataframe.getD i [])).getD j 0 =
      (if (dataframe.getD i []).getD j 0 ≤ pymedian (dataframe.getD i [])
        then (0 : ℚ) else 1) := by
    rw [rowLabel, List.getD_eq_getElem _ _ (by simpa using hj), List.getElem_map,
      List.getD_eq_getElem _ _ hj]
  rw [hrow, hcell]
  by_cases hle : (dataframe.getD i []).getD j 0 ≤ pymedian (dataframe.getD i [])
  · rw [if_pos hle]
    refine ⟨Or.inl rfl, ⟨fun _ => hle, fun _ => rfl⟩, ?_⟩
    constructor
    · intro h0
      exact absurd h0 (by norm_num)
    · intro hlt
      exact absurd hle (not_le.mpr hlt)
  · rw [if_neg hle]
    refine ⟨Or.inr rfl, ?_, ⟨fun _ => not_le.mp hle, fun _ => rfl⟩⟩
    constructor
    · intro h1
      exact absurd h1 (by norm_num)
    · intro hx
      exact absurd hx hle

/-- Witness for C3 at the single-row return table `[0.01, -0.02, 0.03, 0]`:
the first cell is labelled `1` exactly because the row median `0.005` is
strictly below `0.01`. -/
theorem binary_targets_correct_witness :
    ((binary_targets [[1/100, -1/50, 3/100, 0]]).getD 0 []).getD 0 0 = 1 ↔
      pymedian (([[1/100, -1/50, 3/100, 0]] : List (List ℚ)).getD 0 []) <
        (([[1/100, -1/50, 3/100, 0]] : List (List ℚ)).getD 0 []).getD 0 0 :=
  (((binary_targets_correct [[1/100, -1/50, 3/100, 0]]).2.2 0 (by decide)).2
    0 (by decide)).2.2

/-- Object-level embedding of `binary_targets` for the aliasing behaviour:
tables live in a store of dataframe objects and are passed by reference.
`df = dataframe` aliases the argument (no copy is made), the loop mutates
the stored table row by row through that alias, and `return df` returns the
same reference. -/
def binary_targets_ref (dataframe : Nat) (store : List (List (List ℚ))) :
    Nat × List (List (List ℚ)) :=
  let df := dataframe
  (df, store.set df (binary_targets (store.getD dataframe [])))

/-- C9: `binary_targets` returns the very reference it was given, allocates
no new table (the store keeps its size), and overwrites the caller's table
in place with the labels: whenever labelling changes the table, the value
the caller's reference points at afterwards differs from the original. -/
theorem binary_targets_ref_correct (store : List (List (List ℚ))) (r : Nat)
    (hr : r < store.length)
    (hchanged : binary_targets (store.getD r []) ≠ store.getD r []) :
    (binary_targets_ref r store).1 = r ∧
    (binary_targets_ref r store).2.length = store.length ∧
    (binary_targets_ref r store).2.getD r [] = binary_targets (store.getD r []) ∧
    (binary_targets_ref r store).2.getD r [] ≠ store.getD r [] := by
  have hget : (store.set r (binary_targets (store.getD r []))).getD r [] =
      binary_targets (store.getD r []) := by
    rw [List.getD_eq_getElem _ _ (by simpa using hr)]
    simp
  refine ⟨rfl, by simp [binary_targets_ref], ?_, ?_⟩
  · exact hget
  · rw [show (binary_targets_ref r store).2 =
      store.set r (binary_targets (store.getD r [])) from rfl, hget]
    exact hchanged

/-- Witness for C9 at the one-object store holding the one-cell table
`[[5]]`: the labelling maps it to `[[0]]`, so the caller's object is
overwritten. -/
theorem binary_targets_ref_correct_witness :
    (binary_targets_ref 0 [[[5]]]).1 = 0 ∧
    (binary_targets_ref 0 [[[5]]]).2.getD 0 [] ≠ ([[[5]]] : List (List (List ℚ))).getD 0 [] :=
  ⟨(binary_targets_ref_correct [[[5]]] 0 (by decide) (by decide)).1,
   (binary_targets_ref_correct [[[5]]] 0 (by decide) (by decide)).2.2.2⟩

/-- Column count of a row-major block, `block.shape[1]`: the length of its
rows (numpy blocks are rectangular; on the blocks built below all rows have
equal length, so the head's length is the shape). -/
def ncols (rows : List (List ℚ)) : Nat :=
  (rows.headD []).length

/-- Column `j` of a row-major block. -/
def column (rows : List (List ℚ)) (j : Nat) : List ℚ :=
  rows.map (fun r => r.getD j 0)

/-- Mean of a column, as computed by `StandardScaler.fit`. -/
def colMean (xs : List ℚ) : ℚ :=
  xs.sum / xs.length

/-- Biased (`ddof = 0`) variance of a column, as computed by
`StandardScaler.fit`. -/
def colVar (xs : List ℚ) : ℚ :=
  ((xs.map (fun x => (x - colMean xs) ^ 2)).sum) / xs.length

/-- Scale of a column: `sqrt(var)`, except that sklearn replaces a zero
scale by `1`.  The square root on floats is embedded as an abstract
function parameter `sq`; every theorem below holds for any `sq`. -/
def colScale (sq : ℚ → ℚ) (xs : List ℚ) : ℚ :=
  if colVar xs = 0 then 1 else sq (colVar xs)

/-- `StandardScaler.transform` with given per-column statistics:
cell `(i, j)` becomes `(x - mean j) / scale j`. -/
def transformWith (mean scale : Nat → ℚ) (rows : List (List ℚ)) : List (List ℚ) :=
  rows.map (fun r => r.enum.map (fun jx => (jx.2 - mean jx.1) / scale jx.1))

/-- `StandardScaler.fit_transform(rows)`: fit the per-column statistics on
`rows` itself, then transform `rows` with them. -/
def fit_transform (sq : ℚ → ℚ) (rows : List (List ℚ)) : List (List ℚ) :=
  transformWith (fun j => colMean (column rows j))
    (fun j => colScale sq (column rows j)) rows

/-- Embedding of `split.get_train_set(df_returns1, df_binary1)`: for each
company column, window the return and target series with the default
`n_steps = 240`, then stack all companies' sequences company-major and
flatten the leading two axes (`np.reshape` of the `(n_comp, n_seq, 240)`
stack to `(n_comp * n_seq, 240)` in C order is the flatten). -/
def get_train_set (df_returns1 df_binary1 : List (List ℚ)) :
    List (List ℚ) × List ℚ :=
  let seqs := (List.range (ncols df_returns1)).map
    (fun comp => get_sequences (column df_returns1 comp) (column df_binary1 comp) 240)
  ((seqs.map Prod.fst).flatten, (seqs.map Prod.snd).flatten)

/-- Embedding of `split.all_data_LSTM(df_returns, df_binary, period,
len_train)`: select study period `period` from `split_Tperiod` with its
default `len_period = 1308`, `len_test = 327`; overwrite the first
`len_train` rows with `scaler.fit_transform` of those rows; read the
training block back; overwrite the remaining rows with `fit_transform` of
the (still original) remaining rows; read the test block back; window both
blocks with `get_train_set`.  A `period` out of range raises in Python;
here the selected period defaults to the empty table and all four outputs
are empty.  The trailing `np.reshape(..., (n, 240, 1))` adds a singleton
channel axis only and is dropped: tensors stay two-dimensional. -/
def all_data_LSTM (sq : ℚ → ℚ) (df_returns df_binary : List (List ℚ))
    (period len_train : Nat) :
    List (List ℚ) × List ℚ × List (List ℚ) × List ℚ :=
  let periods_returns := (split_Tperiod df_returns df_binary 1308 327).1
  let periods_binary := (split_Tperiod df_returns df_binary 1308 327).2
  let T1_input := periods_returns.getD period []
  let T1_target := periods_binary.getD period []
  let X_input_train := fit_transform sq (T1_input.take len_train)
  let y_input_train := T1_target.take len_train
  let X_test_block := fit_transform sq (T1_input.drop len_train)
  let y_test_block := T1_target.drop len_train
  let tr := get_train_set X_input_train y_input_train
  let te := get_train_set X_test_block y_test_block
  (tr.1, tr.2, te.1, te.2)

/-- The input tensor produced by `get_train_set` does not depend on the
target table: the `X` component of `get_sequences` reads only the return
series. -/
theorem get_train_set_fst_ignores_targets (x y y' : List (List ℚ)) :
    (get_train_set x y).1 = (get_train_set x y').1 := by
  unfold get_train_set
  simp only [List.map_map]
  congr 1

/-- C7: in `all_data_LSTM` the training prefix and the test suffix are
standardized with separately fit scalers.  The `X_test` tensor is the
windowing of `fit_transform` applied to the raw test suffix itself — its
statistics are fit on the test suffix, never on the training prefix — and
consequently `X_test` is unchanged under any change of the returns table
that leaves the test suffix of the selected study period intact.  The
`X_train` tensor is likewise the windowing of `fit_transform` of the raw
training prefix alone. -/
theorem all_data_LSTM_scales_test_separately (sq : ℚ → ℚ)
    (df_returns df_returns2 df_binary : List (List ℚ)) (period len_train : Nat)
    (h : (((split_Tperiod df_returns df_binary 1308 327).1.getD period []).drop len_train) =
      (((split_Tperiod df_returns2 df_binary 1308 327).1.getD period []).drop len_train)) :
    (all_data_LSTM sq df_returns df_binary period len_train).2.2.1 =
      (all_data_LSTM sq df_returns2 df_binary period len_train).2.2.1 ∧
    (all_data_LSTM sq df_returns df_binary period len_train).2.2.1 =
      (get_train_set
        (fit_transform sq
          (((split_Tperiod df_returns df_binary 1308 327).1.getD period []).drop len_train))
        (((split_Tperiod df_returns df_binary 1308 327).2.getD period []).drop len_train)).1 ∧
    (all_data_LSTM sq df_returns df_binary period len_train).1 =
      (get_train_set
        (fit_transform sq
          (((split_Tperiod df_returns df_binary 1308 327).1.getD period []).take len_train))
        (((split_Tperiod df_returns df_binary 1308 327).2.getD period []).take len_train)).1 := by
  have e2 : (all_data_LSTM sq df_returns df_binary period len_train).2.2.1 =
      (get_train_set
        (fit_transform sq
          (((split_Tperiod df_returns df_binary 1308 327).1.getD period []).drop len_train))
        (((split_Tperiod df_returns df_binary 1308 327).2.getD period []).drop len_train)).1 :=
    rfl
  have e2b : (all_data_LSTM sq df_returns2 df_binary period len_train).2.2.1 =
      (get_train_set
        (fit_transform sq
          (((split_Tperiod df_returns2 df_binary 1308 327).1.getD period []).drop len_train))
        (((split_Tperiod df_returns2 df_binary 1308 327).2.getD period []).drop len_train)).1 :=
    rfl
  have e3 : (all_data_LSTM sq df_returns df_binary period len_train).1 =
      (get_train_set
        (fit_transform sq
          (((split_Tperiod df_returns df_binary 1308 327).1.getD period []).take len_train))
        (((split_Tperiod df_returns df_binary 1308 327).2.getD period []).take len_train)).1 :=
    rfl
  refine ⟨?_, e2, e3⟩
  rw [e2, e2b, h]
  exact get_train_set_fst_ignores_targets _ _ _

/-- Witness for C7: two tables that differ everywhere but are both shorter
than a study period select the same (empty) test suffix, hence the same
`X_test`. -/
theorem all_data_LSTM_scales_test_separately_witness :
    (all_data_LSTM id [[1]] [] 0 981).2.2.1 =
      (all_data_LSTM id [[2]] [] 0 981).2.2.1 :=
  (all_data_LSTM_scales_test_separately id [[1]] [[2]] [] 0 981 (by decide)).1

/-- The feature indices of `all_data_DNN` for time-axis length `d`:
`list(range(0, d, 20)) + list(range(221, d))`. -/
def dnnIndices (d : Nat) : List Nat :=
  pyRange (d : Int) 20 ++ (List.range d).drop 221

/-- Numpy fancy indexing `row[m]` along the feature axis. -/
def selectIdx (idxs : List Nat) (r : List ℚ) : List ℚ :=
  idxs.map (fun i => r.getD i 0)

/-- Embedding of `split.all_data_DNN(df_returns, df_binary, period,
len_train)`: calls `all_data_LSTM` with its default `len_train = 981` (the
source does not forward its own `len_train` argument, hence the unused
parameter here), selects the features `m = list(range(0, X_train.shape[1],
20)) + list(range(221, X_train.shape[1]))` of every sequence of `X_train`
and `X_test`, and flattens the singleton channel axis
(`np.reshape(..., (n, 31))`, which on these tensors only removes the axis
that the embedding never materialized). -/
def all_data_DNN (sq : ℚ → ℚ) (df_returns df_binary : List (List ℚ))
    (period _len_train : Nat) :
    List (List ℚ) × List ℚ × List (List ℚ) × List ℚ :=
  let L := all_data_LSTM sq df_returns df_binary period 981
  let m := dnnIndices (ncols L.1)
  (L.1.map (selectIdx m), L.2.1, L.2.2.1.map (selectIdx m), L.2.2.2)


/-- Every sequence produced by the `X` component of `get_train_set` has
exactly 240 entries: it is a slice `returns[i:i+240]` whose end stays in
range. -/
theorem mem_get_train_set_fst_length (x y : List (List ℚ)) (r : List ℚ)
    (hr : r ∈ (get_train_set x y).1) : r.length = 240 := by
  unfold get_train_set at hr
  rw [List.mem_flatten] at hr
  obtain ⟨l, hl, hrl⟩ := hr
  rw [List.map_map] at hl
  obtain ⟨comp, hcomp, hlz⟩ := List.mem_map.mp hl
  subst hlz
  simp only [Function.comp, get_sequences] at hrl
  obtain ⟨i, hi, hri⟩ := List.mem_map.mp hrl
  subst hri
  rw [List.mem_range] at hi
  simp only [pySlice, List.length_drop, List.length_take, column, List.length_map] at hi ⊢
  omega

/-- C8: `all_data_DNN` takes the `all_data_LSTM` tensors (at the default
`len_train = 981`) and keeps, for every sequence of `X_train` and `X_test`,
exactly the features at time indices `0, 20, ..., 220` followed by `221,
..., 239` — computed from `X_train.shape[1] = 240` — so whenever
`all_data_LSTM` produced any training sequence at all (so its shapes are
defined), every output row of both tensors has exactly 31 features,
regardless of the company count of the input. -/
theorem all_data_DNN_features (sq : ℚ → ℚ) (df_returns df_binary : List (List ℚ))
    (period len_train2 : Nat) :
    (all_data_DNN sq df_returns df_binary period len_train2).1 =
      (all_data_LSTM sq df_returns df_binary period 981).1.map
        (selectIdx (dnnIndices (ncols (all_data_LSTM sq df_returns df_binary period 981).1))) ∧
    (all_data_DNN sq df_returns df_binary period len_train2).2.2.1 =
      (all_data_LSTM sq df_returns df_binary period 981).2.2.1.map
        (selectIdx (dnnIndices (ncols (all_data_LSTM sq df_returns df_binary period 981).1))) ∧
    dnnIndices 240 =
      [0, 20, 40, 60, 80, 100, 120, 140, 160, 180, 200, 220,
       221, 222, 223, 224, 225, 226, 227, 228, 229, 230, 231, 232, 233,
       234, 235, 236, 237, 238, 239] ∧
    ((all_data_LSTM sq df_returns df_binary period 981).1 = [] ∨
      ncols (all_data_LSTM sq df_returns df_binary period 981).1 = 240) ∧
    ((all_data_LSTM sq df_returns df_binary period 981).1 = [] ∨
      (all_data_DNN sq df_returns df_binary period len_train2).1.all
        (fun r => r.length == 31) = true) ∧
    ((all_data_LSTM sq df_returns df_binary period 981).1 = [] ∨
      (all_data_DNN sq df_returns df_binary period len_train2).2.2.1.all
        (fun r => r.length == 31) = true) := by
  have hlit : dnnIndices 240 =
      [0, 20, 40, 60, 80, 100, 120, 140, 160, 180, 200, 220,
       221, 222, 223, 224, 225, 226, 227, 228, 229, 230, 231, 232, 233,
       234, 235, 236, 237, 238, 239] := by decide
  have htrain : (all_data_DNN sq df_returns df_binary period len_train2).1 =
      (all_data_LSTM sq df_returns df_binary period 981).1.map
        (selectIdx (dnnIndices (ncols (all_data_LSTM sq df_returns df_binary period 981).1))) := by
    simp only [all_data_DNN]
  have htest : (all_data_DNN sq df_returns df_binary period len_train2).2.2.1 =
      (all_data_LSTM sq df_returns df_binary period 981).2.2.1.map
        (selectIdx (dnnIndices (ncols (all_data_LSTM sq df_returns df_binary period 981).1))) := by
    simp only [all_data_DNN]
  have hncols : (all_data_LSTM sq df_returns df_binary period 981).1 ≠ [] →
      ncols (all_data_LSTM sq df_returns df_binary period 981).1 = 240 := by
    intro hne
    cases hA : (all_data_LSTM sq df_returns df_binary period 981).1 with
    | nil => exact absurd hA hne
    | cons r rest =>
      have hrmem : r ∈ (all_data_LSTM sq df_returns df_binary period 981).1 := by
        rw [hA]
        exact List.mem_cons_self r rest
      have hr240 : r.length = 240 :=
        mem_get_train_set_fst_length _ _ r hrmem
      simp only [ncols, List.headD_cons, hr240]
  have hlen31 : ∀ z : List ℚ,
      z.length = 31 → (z.length == 31) = true := by
    intro z hz
    rw [hz]
    rfl
  refine ⟨htrain, htest, hlit, ?_, ?_, ?_⟩
  · by_cases hne : (all_data_LSTM sq df_returns df_binary period 981).1 = []
    · exact Or.inl hne
    · exact Or.inr (hncols hne)
  · by_cases hne : (all_data_LSTM sq df_returns df_binary period 981).1 = []
    · exact Or.inl hne
    · refine Or.inr (List.all_eq_true.mpr ?_)
      intro z hz
      rw [htrain] at hz
      obtain ⟨r, hrmem, hzr⟩ := List.mem_map.mp hz
      subst hzr
      apply hlen31
      rw [selectIdx, List.length_map, hncols hne, hlit]
      rfl
  · by_cases hne : (all_data_LSTM sq df_returns df_binary period 981).1 = []
    · exact Or.inl hne
    · refine Or.inr (List.all_eq_true.mpr ?_)
      intro z hz
      rw [htest] at hz
      obtain ⟨r, hrmem, hzr⟩ := List.mem_map.mp hz
      subst hzr
      apply hlen31
      rw [selectIdx, List.length_map, hncols hne, hlit]
      rfl
